import Mathlib

/-!
Shallow embedding of `main.py`, a converter from dnsmasq `server=/domain/ip`
rule lists to a dotted-domain host-rule list reconciled against a whitelist
file (`prewhite.hostrules`) and a blacklist file (`preblack.hostrules`).

Python strings are modelled as `List Char`; files are modelled as the list of
their lines (each line without its trailing newline); the network fetch, the
filesystem and console printing are external collaborators and are abstracted
away: each I/O-level function is embedded as a pure function from the file
contents it reads to the value it computes, and a `none` result stands for
the Python function returning `False` without writing the output file.
-/

/-- Python `str` as a list of characters. -/
abbrev Str := List Char

/-- Python `str.strip()` with no argument: drop whitespace from both ends.
(Python strips a slightly larger whitespace class than `Char.isWhitespace`;
the difference is immaterial to every claim below.) -/
def pyStrip (s : Str) : Str :=
  ((s.dropWhile Char.isWhitespace).reverse.dropWhile Char.isWhitespace).reverse

/-- Python `s.startswith(pat)`: `pyStartswith s pat` checks that `pat` is an
initial segment of `s`. -/
def pyStartswith : Str → Str → Bool
  | _, [] => true
  | [], _ :: _ => false
  | c :: s, p :: ps => c == p && pyStartswith s ps

/-- Python `s.endswith(suf)`. -/
def pyEndswith (s suf : Str) : Bool :=
  pyStartswith s.reverse suf.reverse

/-- The constant `SEPARATOR_COMMENT` from `main.py`. -/
def SEPARATOR_COMMENT : Str := "# -------autogen------".toList

/-- The constant `BLACKLIST_COMMENT_PREFIX` from `main.py` (the fixed marker
put in front of a blacklisted entry). -/
def BLACKLIST_COMMENT : Str := "# blocked ".toList

/-- The one-character string `"#"` used in `startswith('#')` checks. -/
def hashStr : Str := ['#']

/-- The one-character string `"."` used in `startswith('.')` checks. -/
def dotStr : Str := ['.']

/-- The literal part `server=/` of the regex `server=/([^/]+)/`. -/
def serverTag : Str := "server=/".toList

/-- The dot-prefix normalization done at the top of `is_blacklisted`:
`if not domain.startswith('.'): domain = '.' + domain`. -/
def withDot (s : Str) : Str :=
  if pyStartswith s dotStr = true then s else '.' :: s

/-- The `for black_domain in blacklist` loop body of `is_blacklisted`:
strip the pattern, skip it when blank or `#`-prefixed, otherwise dot-prefix
it and compare `domain == black or domain.endswith(black)`, returning the
first dotted pattern that matches. -/
def isBlackLoop (domain : Str) : List Str → Option Str
  | [] => none
  | b :: rest =>
    if pyStrip b = [] ∨ pyStartswith (pyStrip b) hashStr = true then
      isBlackLoop domain rest
    else
      if domain == withDot (pyStrip b) || pyEndswith domain (withDot (pyStrip b)) then
        some (withDot (pyStrip b))
      else
        isBlackLoop domain rest

/-- `is_blacklisted(domain, blacklist)` from `main.py`: dot-prefix the domain
when needed, then scan the blacklist in order returning the first match. -/
def is_blacklisted (domain : Str) (blacklist : List Str) : Option Str :=
  isBlackLoop (withDot domain) blacklist

/-- `load_blacklist()` from `main.py`, as a function of the lines of
`preblack.hostrules` (an absent file is the empty line list):
`[line.strip() for line in f if line.strip() and not line.strip().startswith('#')]`. -/
def load_blacklist (lines : List Str) : List Str :=
  lines.filterMap fun line =>
    if pyStrip line ≠ [] ∧ pyStartswith (pyStrip line) hashStr = false then
      some (pyStrip line)
    else
      none

/-- `process_domain(domain, blacklist)` from `main.py`: prepend a dot
unconditionally (`domain_with_dot = f".{domain}"`), and when the blacklist is
non-empty and matches, return the comment-marked form together with `True`. -/
def process_domain (domain : Str) (blacklist : List Str) : Str × Bool :=
  if blacklist ≠ [] ∧ (is_blacklisted domain blacklist).isSome = true then
    (BLACKLIST_COMMENT ++ ('.' :: domain), true)
  else
    ('.' :: domain, false)

/-- One attempt of the regex `server=/([^/]+)/` at the current position:
when the text starts with `server=/`, take the maximal run of non-`/`
characters after it; the attempt succeeds when that run is non-empty and is
followed by a further character (necessarily `/`). On success it returns the
captured token and the total length of the match. -/
def tryMatch (s : Str) : Option (Str × Nat) :=
  if pyStartswith s serverTag = true then
    if (s.drop serverTag.length).takeWhile (fun ch => ch ≠ '/') ≠ [] ∧
        ((s.drop serverTag.length).takeWhile (fun ch => ch ≠ '/')).length <
          (s.drop serverTag.length).length then
      some ((s.drop serverTag.length).takeWhile (fun ch => ch ≠ '/'),
        serverTag.length + (((s.drop serverTag.length).takeWhile (fun ch => ch ≠ '/')).length + 1))
    else
      none
  else
    none

/-- Fuel-indexed left-to-right scan implementing `re.findall` for the pattern
`server=/([^/]+)/`: on a match, emit the captured token and resume right
after the consumed match; otherwise advance one character. The fuel is only a
termination device; `extractTokens` supplies enough of it. -/
def extractGo : Nat → Str → List Str
  | 0, _ => []
  | _ + 1, [] => []
  | n + 1, c :: rest =>
    match tryMatch (c :: rest) with
    | some (tok, k) => tok :: extractGo n (List.drop k (c :: rest))
    | none => extractGo n rest

/-- `re.compile(r'server=/([^/]+)/').findall(content)` from `main.py`. -/
def extractTokens (s : Str) : List Str :=
  extractGo s.length s

/-- The line transformation applied by the whitelist-reading loop of
`save_domains_with_prewhite` to one line of `prewhite.hostrules`: strip it;
keep blank and `#`-prefixed lines as stripped; demote a domain entry that the
blacklist matches to `BLACKLIST_COMMENT_PREFIX + line`; keep other entries. -/
def outLine (blacklist : List Str) (line : Str) : Str :=
  if pyStrip line = [] ∨ pyStartswith (pyStrip line) hashStr = true then
    pyStrip line
  else
    if blacklist ≠ [] ∧ (is_blacklisted (pyStrip line) blacklist).isSome = true then
      BLACKLIST_COMMENT ++ pyStrip line
    else
      pyStrip line

/-- The `prewhite_domains` list built by the whitelist loop of
`save_domains_with_prewhite`: one output line per input line, in order. -/
def prewhiteLines (blacklist : List Str) (lines : List Str) : List Str :=
  lines.map (outLine blacklist)

/-- The `prewhite_domains_set` built by the same loop (modelled as the list
of added texts; only membership is ever consulted): a stripped line is added
exactly when it is a domain entry that the blacklist does not match. -/
def prewhiteSeen (blacklist : List Str) : List Str → List Str
  | [] => []
  | line :: rest =>
    if pyStrip line = [] ∨ pyStartswith (pyStrip line) hashStr = true then
      prewhiteSeen blacklist rest
    else
      if blacklist ≠ [] ∧ (is_blacklisted (pyStrip line) blacklist).isSome = true then
        prewhiteSeen blacklist rest
      else
        if pyStrip line ≠ [] ∧ pyStartswith (pyStrip line) hashStr = false then
          pyStrip line :: prewhiteSeen blacklist rest
        else
          prewhiteSeen blacklist rest

/-- The `filtered_domains` loop of `save_domains_with_prewhite`: an entry
carrying the blacklist comment marker is kept unconditionally; a plain entry
is dropped when its text is in `prewhite_domains_set` and kept otherwise. -/
def filterAuto (seen : List Str) : List Str → List Str
  | [] => []
  | d :: rest =>
    if pyStartswith d BLACKLIST_COMMENT = true then
      d :: filterAuto seen rest
    else
      if d ∈ seen then
        filterAuto seen rest
      else
        d :: filterAuto seen rest

/-- Lines of the whitelist file, an absent file contributing none (the
`os.path.isfile(PREWHITE_FILE)` check of `main.py`). -/
def optLines (o : Option (List Str)) : List Str :=
  match o with
  | some ls => ls
  | none => []

/-- `save_domains_with_prewhite(domains, output_file)` from `main.py`, as a
function of the processed domain list and of the contents of
`prewhite.hostrules` (`none` when absent) and `preblack.hostrules`: the
returned value is the `all_domains` list that is written to the output file.
The `if prewhite_domains:` guard of the Python code is kept (extending by an
empty list is a no-op either way). -/
def save_domains_with_prewhite (domains : List Str) (prewhiteFile : Option (List Str))
    (blackFile : List Str) : List Str :=
  ((if prewhiteLines (load_blacklist blackFile) (optLines prewhiteFile) ≠ [] then
      prewhiteLines (load_blacklist blackFile) (optLines prewhiteFile)
    else
      []) ++ [SEPARATOR_COMMENT])
    ++ filterAuto (prewhiteSeen (load_blacklist blackFile) (optLines prewhiteFile)) domains

/-- The `processed_domains` list built by `extract_domains_from_url` and
`extract_domains_from_file`: every extracted token, processed in order. -/
def autoEntries (content : Str) (blacklist : List Str) : List Str :=
  (extractTokens content).map fun d => (process_domain d blacklist).1

/-- The shared body of `extract_domains_from_url` and
`extract_domains_from_file` after a successful fetch/read, as a function of
the fetched rule-source text and the two override files: `none` models
`return False` with nothing written (zero tokens extracted), `some out`
models a successful run writing the line list `out`. -/
def runExtract (content : Str) (prewhiteFile : Option (List Str))
    (blackFile : List Str) : Option (List Str) :=
  if extractTokens content = [] then
    none
  else
    some (save_domains_with_prewhite (autoEntries content (load_blacklist blackFile))
      prewhiteFile blackFile)

/-- The writer: `'\n'.join(all_domains) + '\n'`. -/
def writeOutput (ls : List Str) : Str :=
  (List.intersperse ['\n'] ls).flatten ++ ['\n']

/-! Helper lemmas about the string primitives. -/

/-- A string starts with any of its own initial segments. -/
theorem pyStartswith_append (p s : Str) : pyStartswith (p ++ s) p = true := by
  induction p with
  | nil => cases s <;> rfl
  | cons a p ih => simp [pyStartswith, ih]

/-- Characterization of `pyStartswith`. -/
theorem pyStartswith_iff (s p : Str) : pyStartswith s p = true ↔ ∃ r, s = p ++ r := by
  induction p generalizing s with
  | nil =>
    cases s with
    | nil => exact ⟨fun _ => ⟨[], rfl⟩, fun _ => rfl⟩
    | cons b s => exact ⟨fun _ => ⟨b :: s, rfl⟩, fun _ => rfl⟩
  | cons a p ih =>
    cases s with
    | nil =>
      simp [pyStartswith]
    | cons b s =>
      simp only [pyStartswith, Bool.and_eq_true, beq_iff_eq, ih, List.cons_append,
        List.cons.injEq]
      constructor
      · rintro ⟨rfl, r, rfl⟩
        exact ⟨r, rfl, rfl⟩
      · rintro ⟨r, rfl, rfl⟩
        exact ⟨rfl, r, rfl⟩

/-- Characterization of `pyEndswith`. -/
theorem pyEndswith_iff (s t : Str) : pyEndswith s t = true ↔ ∃ q, s = q ++ t := by
  rw [pyEndswith, pyStartswith_iff]
  constructor
  · rintro ⟨r, hr⟩
    refine ⟨r.reverse, ?_⟩
    have h2 := congrArg List.reverse hr
    simpa using h2
  · rintro ⟨q, rfl⟩
    exact ⟨q.reverse, by simp⟩

/-- The comparison done by `is_blacklisted` on dotted strings, namely
`domain == black or domain.endswith(black)`, holds iff the dotted pattern is
a literal suffix of the dotted domain. -/
theorem blackCond_iff (d t : Str) : (d == t || pyEndswith d t) = true ↔ ∃ q, d = q ++ t := by
  constructor
  · intro h
    simp only [Bool.or_eq_true] at h
    rcases h with h | h
    · exact ⟨[], by simpa using beq_iff_eq.mp h⟩
    · exact (pyEndswith_iff d t).mp h
  · rintro ⟨q, hq⟩
    simp only [Bool.or_eq_true]
    exact Or.inr ((pyEndswith_iff d t).mpr ⟨q, hq⟩)

/-- An empty blacklist never matches. -/
theorem black_nil (d : Str) : is_blacklisted d [] = none := rfl

/-- The first component of `process_domain`, with the redundant
`if blacklist:` guard eliminated (an empty blacklist never matches anyway). -/
theorem process_domain_fst (t : Str) (bl : List Str) :
    (process_domain t bl).1 =
      if (is_blacklisted t bl).isSome = true then BLACKLIST_COMMENT ++ ('.' :: t)
      else '.' :: t := by
  cases bl with
  | nil => simp [process_domain, black_nil]
  | cons b l =>
    by_cases h : (is_blacklisted t (b :: l)).isSome = true
    · simp [process_domain, h]
    · simp [process_domain, h]

/-- C9: a blacklist pattern that strips to the empty string, or whose
stripped form begins with `#`, is skipped by the Matcher itself: removing it
from the pattern list never changes the result, so a blank or whitespace-only
line can never suppress any domain even when passed unfiltered. -/
theorem c9_blank_pattern_skipped (d p : Str) (rest : List Str)
    (h : pyStrip p = [] ∨ pyStartswith (pyStrip p) hashStr = true) :
    is_blacklisted d (p :: rest) = is_blacklisted d rest := by
  show isBlackLoop (withDot d) (p :: rest) = isBlackLoop (withDot d) rest
  rw [isBlackLoop, if_pos h]

/-- Witness for C9 at a whitespace-only pattern. -/
theorem c9_blank_pattern_skipped_witness :
    is_blacklisted ("a.com".toList) ["   ".toList] = is_blacklisted ("a.com".toList) [] :=
  c9_blank_pattern_skipped ("a.com".toList) ("   ".toList) [] (by decide)

/-- C7: when zero domain tokens are extracted from a successfully fetched
source, the run fails and nothing is written (the pipeline yields `none`);
an absent whitelist file, by contrast, still yields a successful run. -/
theorem c7_source_empty_fatal (content : Str) (w : Option (List Str)) (bf : List Str) :
    (extractTokens content = [] → runExtract content w bf = none)
    ∧ (extractTokens content ≠ [] → (runExtract content none bf).isSome = true) := by
  constructor
  · intro h
    simp [runExtract, h]
  · intro h
    simp [runExtract, h]

/-- Witness for C7: a tokenless source fails, a token-bearing source with an
absent whitelist succeeds. -/
theorem c7_source_empty_fatal_witness :
    runExtract ("garbage".toList) (some []) [] = none
    ∧ (runExtract ("server=/a.com/1".toList) none []).isSome = true :=
  ⟨(c7_source_empty_fatal ("garbage".toList) (some []) []).1 (by decide),
   (c7_source_empty_fatal ("server=/a.com/1".toList) none []).2 (by decide)⟩

/-- C8: the written output bytes are a deterministic function of the fetched
source text, the whitelist file content and the blacklist file content: two
runs on equal inputs produce byte-identical output. -/
theorem c8_deterministic (c1 c2 : Str) (w1 w2 : Option (List Str)) (b1 b2 : List Str)
    (hc : c1 = c2) (hw : w1 = w2) (hb : b1 = b2) :
    Option.map writeOutput (runExtract c1 w1 b1) =
      Option.map writeOutput (runExtract c2 w2 b2) := by
  subst hc
  subst hw
  subst hb
  rfl

/-- Witness for C8 at a concrete run. -/
theorem c8_deterministic_witness :
    Option.map writeOutput (runExtract ("server=/a.com/1".toList) none []) =
      Option.map writeOutput (runExtract ("server=/a.com/1".toList) none []) :=
  c8_deterministic _ _ _ _ _ _ rfl rfl rfl

/-- C10: the emitted entry text prepends a dot unconditionally, so a token
already beginning with `.` is emitted with two leading dots, while the
Matcher normalizes conditionally and compares that token in its single-dot
form: `.a.com` matches the pattern `a.com` yet is emitted as
`# blocked ..a.com`. -/
theorem c10_unconditional_dot :
    (∀ (t : Str) (bl : List Str), (process_domain t bl).1 =
        if (is_blacklisted t bl).isSome = true then BLACKLIST_COMMENT ++ ('.' :: t)
        else '.' :: t)
    ∧ withDot (".a.com".toList) = ".a.com".toList
    ∧ is_blacklisted (".a.com".toList) ["a.com".toList] = some (".a.com".toList)
    ∧ process_domain (".a.com".toList) [] = ("..a.com".toList, false)
    ∧ process_domain (".a.com".toList) ["a.com".toList] = ("# blocked ..a.com".toList, true) :=
  ⟨process_domain_fst, by decide, by decide, by decide, by decide⟩

/-- C1: for loader-shaped patterns (stripped, non-blank, not `#`-prefixed),
the Matcher reports a match iff the dot-prefixed domain equals the
dot-prefixed pattern or ends with it as a literal suffix; in particular
`example.com` matches `mail.example.com` and itself but neither
`notexample.com` nor `myexample.com`. -/
theorem c1_suffix_match_iff :
    (∀ (d : Str) (bl : List Str),
      (∀ p ∈ bl, pyStrip p = p ∧ p ≠ [] ∧ pyStartswith p hashStr = false) →
      ((is_blacklisted d bl).isSome = true ↔ ∃ p ∈ bl, ∃ q, withDot d = q ++ withDot p))
    ∧ (is_blacklisted ("mail.example.com".toList) ["example.com".toList]).isSome = true
    ∧ (is_blacklisted ("example.com".toList) ["example.com".toList]).isSome = true
    ∧ is_blacklisted ("notexample.com".toList) ["example.com".toList] = none
    ∧ is_blacklisted ("myexample.com".toList) ["example.com".toList] = none := by
  refine ⟨?_, by decide, by decide, by decide, by decide⟩
  intro d bl h
  induction bl with
  | nil => simp [is_blacklisted, isBlackLoop]
  | cons b l ih =>
    obtain ⟨hb1, hb2, hb3⟩ := h b (by simp)
    have hl := ih fun p hp => h p (List.mem_cons_of_mem b hp)
    show (isBlackLoop (withDot d) (b :: l)).isSome = true ↔ _
    rw [isBlackLoop, if_neg (by rw [hb1]; simp [hb2, hb3])]
    by_cases hc : (withDot d == withDot (pyStrip b) ||
        pyEndswith (withDot d) (withDot (pyStrip b))) = true
    · rw [if_pos hc]
      simp only [Option.isSome_some, true_iff]
      exact ⟨b, List.mem_cons_self b l, by rw [← hb1]; exact (blackCond_iff _ _).mp hc⟩
    · rw [if_neg hc]
      have hni : ¬ ∃ q, withDot d = q ++ withDot b := by
        intro hex
        rw [← hb1] at hex
        exact hc ((blackCond_iff _ _).mpr hex)
      show (isBlackLoop (withDot d) l).isSome = true ↔ _
      rw [show (isBlackLoop (withDot d) l) = is_blacklisted d l from rfl, hl]
      constructor
      · rintro ⟨p, hp, hq⟩
        exact ⟨p, List.mem_cons_of_mem b hp, hq⟩
      · rintro ⟨p, hp, hq⟩
        rcases List.mem_cons.mp hp with rfl | hp2
        · exact absurd hq hni
        · exact ⟨p, hp2, hq⟩

/-- Witness for C1: the general characterization instantiated at the domain
`mail.a.com` and pattern list `[a.com]`. -/
theorem c1_suffix_match_iff_witness :
    (is_blacklisted ("mail.a.com".toList) ["a.com".toList]).isSome = true ↔
      ∃ p ∈ ["a.com".toList], ∃ q, withDot ("mail.a.com".toList) = q ++ withDot p :=
  c1_suffix_match_iff.1 ("mail.a.com".toList) ["a.com".toList] (by decide)

/-- C3: each extracted token reaching step 4 is classified by the entry text
alone: a blacklist match yields the comment-marked canonical entry and the
filter keeps it for every possible "seen" set (the set is never consulted);
a non-match yields the plain canonical entry, which is dropped exactly when
its text is in the "seen" set of retained whitelist entry texts. -/
theorem c3_auto_entry_classification (t : Str) (bl seen rest : List Str) :
    ((is_blacklisted t bl).isSome = true →
      (process_domain t bl).1 = BLACKLIST_COMMENT ++ ('.' :: t)
      ∧ ∀ s2 : List Str, filterAuto s2 ((process_domain t bl).1 :: rest) =
          (process_domain t bl).1 :: filterAuto s2 rest)
    ∧ (is_blacklisted t bl = none →
      (process_domain t bl).1 = '.' :: t
      ∧ filterAuto seen (('.' :: t) :: rest) =
          (if ('.' :: t) ∈ seen then filterAuto seen rest
           else ('.' :: t) :: filterAuto seen rest)) := by
  constructor
  · intro h
    have he : (process_domain t bl).1 = BLACKLIST_COMMENT ++ ('.' :: t) := by
      rw [process_domain_fst, if_pos h]
    refine ⟨he, fun s2 => ?_⟩
    rw [he, filterAuto, if_pos (pyStartswith_append BLACKLIST_COMMENT ('.' :: t))]
  · intro h
    have he : (process_domain t bl).1 = '.' :: t := by
      rw [process_domain_fst, if_neg (by rw [h]; simp)]
    refine ⟨he, ?_⟩
    rw [filterAuto, if_neg (by rw [show (BLACKLIST_COMMENT = '#' :: " blocked ".toList) from rfl]; simp [pyStartswith])]

/-- Witness for C3: a blacklisted token is kept with the comment marker, and
a plain token against an empty blacklist is kept when not in the seen set. -/
theorem c3_auto_entry_classification_witness :
    ((process_domain ("a.com".toList) ["a.com".toList]).1 =
        BLACKLIST_COMMENT ++ ('.' :: "a.com".toList)
      ∧ ∀ s2 : List Str, filterAuto s2 ((process_domain ("a.com".toList) ["a.com".toList]).1 :: []) =
          (process_domain ("a.com".toList) ["a.com".toList]).1 :: filterAuto s2 [])
    ∧ ((process_domain ("a.com".toList) []).1 = '.' :: "a.com".toList
      ∧ filterAuto [] (('.' :: "a.com".toList) :: []) =
          (if ('.' :: "a.com".toList) ∈ ([] : List Str) then filterAuto [] []
           else ('.' :: "a.com".toList) :: filterAuto [] [])) :=
  ⟨(c3_auto_entry_classification ("a.com".toList) ["a.com".toList] [] []).1 (by decide),
   (c3_auto_entry_classification ("a.com".toList) [] [] []).2 (by decide)⟩

/-- The first element surviving `dropWhile` falsifies the predicate. -/
theorem dropWhile_head_not (p : Char → Bool) :
    ∀ (l : Str) (c : Char) (r : Str), l.dropWhile p = c :: r → p c = false := by
  intro l
  induction l with
  | nil => intro c r h; exact absurd h (by simp)
  | cons a l ih =>
    intro c r h
    by_cases hp : p a = true
    · rw [List.dropWhile_cons_of_pos hp] at h
      exact ih c r h
    · rw [List.dropWhile_cons_of_neg hp] at h
      cases h
      exact Bool.eq_false_iff.mpr hp

/-- A successful regex attempt decomposes the text as the literal tag, a
non-empty verbatim token free of `/`, and the closing `/`; the reported
length is that of the whole consumed match. -/
theorem tryMatch_some (s tok : Str) (k : Nat) (h : tryMatch s = some (tok, k)) :
    tok ≠ [] ∧ '/' ∉ tok ∧ (∃ r, s = serverTag ++ (tok ++ '/' :: r))
    ∧ k = serverTag.length + (tok.length + 1) := by
  unfold tryMatch at h
  split at h
  · next hst =>
    split at h
    · next hcond =>
      obtain ⟨hne, hlt⟩ := hcond
      injection h with h1
      injection h1 with htok hk
      subst htok
      refine ⟨hne, ?_, ?_, hk.symm⟩
      · intro hmem
        have := List.mem_takeWhile_imp hmem
        simp at this
      · obtain ⟨r0, hr0⟩ := (pyStartswith_iff s serverTag).mp hst
        have hdrop : s.drop serverTag.length = r0 := by
          rw [hr0, List.drop_left]
        rw [hdrop] at hne hlt ⊢
        obtain ⟨c, r, hcr⟩ : ∃ c r, r0.dropWhile (fun ch => decide (ch ≠ '/')) = c :: r := by
          cases hd : r0.dropWhile (fun ch => decide (ch ≠ '/')) with
          | nil =>
            exfalso
            have := List.takeWhile_append_dropWhile (fun ch => decide (ch ≠ '/')) r0
            rw [hd, List.append_nil] at this
            rw [this] at hlt
            exact absurd hlt (by omega)
          | cons c r => exact ⟨c, r, rfl⟩
        have hc : c = '/' := by
          have := dropWhile_head_not (fun ch => decide (ch ≠ '/')) r0 c r hcr
          simpa using this
        refine ⟨r, ?_⟩
        have hsplit := List.takeWhile_append_dropWhile (fun ch => decide (ch ≠ '/')) r0
        rw [hcr, hc] at hsplit
        rw [hsplit]
        exact hr0
    · exact absurd h (by simp)
  · exact absurd h (by simp)

/-- Running the scan with any sufficient fuel gives the same result. -/
theorem extractGo_eq (n : Nat) :
    ∀ (m : Nat) (s : Str), s.length ≤ n → s.length ≤ m → extractGo n s = extractGo m s := by
  induction n with
  | zero =>
    intro m s hn _
    have hs : s = [] := List.eq_nil_of_length_eq_zero (Nat.le_zero.mp hn)
    subst hs
    cases m <;> rfl
  | succ n ih =>
    intro m s hn hm
    cases m with
    | zero =>
      have hs : s = [] := List.eq_nil_of_length_eq_zero (Nat.le_zero.mp hm)
      subst hs
      rfl
    | succ m =>
      cases s with
      | nil => rfl
      | cons c rest =>
        simp only [extractGo]
        simp only [List.length_cons] at hn hm
        cases htm : tryMatch (c :: rest) with
        | none =>
          exact ih m rest (by omega) (by omega)
        | some pr =>
          obtain ⟨tok, k⟩ := pr
          have hk := (tryMatch_some (c :: rest) tok k htm).2.2.2
          have hkpos : 1 ≤ k := by rw [hk]; omega
          show tok :: extractGo n (List.drop k (c :: rest)) =
            tok :: extractGo m (List.drop k (c :: rest))
          congr 1
          apply ih
          · rw [List.length_drop]
            simp only [List.length_cons]
            omega
          · rw [List.length_drop]
            simp only [List.length_cons]
            omega

/-- The defining left-to-right recurrence of the token scan: at each
position, either the regex matches and the scan resumes right after the
consumed `server=/<token>/`, or the scan advances one character. -/
theorem extractTokens_cons (c : Char) (rest : Str) :
    extractTokens (c :: rest) =
      match tryMatch (c :: rest) with
      | some (tok, k) => tok :: extractTokens (List.drop k (c :: rest))
      | none => extractTokens rest := by
  show extractGo (c :: rest).length (c :: rest) = _
  simp only [List.length_cons, extractGo]
  cases htm : tryMatch (c :: rest) with
  | none => rfl
  | some pr =>
    obtain ⟨tok, k⟩ := pr
    have hk := (tryMatch_some (c :: rest) tok k htm).2.2.2
    show tok :: extractGo rest.length (List.drop k (c :: rest)) =
      tok :: extractTokens (List.drop k (c :: rest))
    congr 1
    apply extractGo_eq
    · rw [List.length_drop]
      simp only [List.length_cons]
      omega
    · rw [List.length_drop]

/-- C5 counterexample: the extractor is not per-line. One single line (the
content holds no newline) containing two `server=/…/` occurrences yields two
tokens, and a line containing `server=//…` (an empty token, which contains
no `/`) yields none instead of passing the empty token through. -/
theorem c5_per_line_counterexample :
    extractTokens ("server=/a.com/1 server=/b.com/2".toList) =
      ["a.com".toList, "b.com".toList]
    ∧ List.count '\n' ("server=/a.com/1 server=/b.com/2".toList) = 0
    ∧ extractTokens ("server=//1.1.1.1".toList) = [] := by
  decide

/-- C5 as amended: the extractor scans the whole text left to right; at each
position it either matches `server=/<token>/` — emitting the token verbatim
and resuming after the consumed match — or advances one character, so tokens
come one per non-overlapping occurrence in source order with duplicates
preserved; a matched token is a non-empty run of non-`/` characters closed
by a `/`. -/
theorem c5_findall_scan :
    extractTokens [] = []
    ∧ (∀ (c : Char) (rest : Str),
        extractTokens (c :: rest) =
          match tryMatch (c :: rest) with
          | some (tok, k) => tok :: extractTokens (List.drop k (c :: rest))
          | none => extractTokens rest)
    ∧ (∀ (s tok : Str) (k : Nat), tryMatch s = some (tok, k) →
        tok ≠ [] ∧ '/' ∉ tok ∧ (∃ r, s = serverTag ++ (tok ++ '/' :: r))
        ∧ k = serverTag.length + (tok.length + 1)) :=
  ⟨rfl, extractTokens_cons, tryMatch_some⟩

/-- Witness for C5: the occurrence decomposition at a concrete match. -/
theorem c5_findall_scan_witness :
    "a.com".toList ≠ [] ∧ '/' ∉ "a.com".toList
    ∧ (∃ r, "server=/a.com/1".toList = serverTag ++ ("a.com".toList ++ '/' :: r))
    ∧ 14 = serverTag.length + ("a.com".toList.length + 1) :=
  c5_findall_scan.2.2 ("server=/a.com/1".toList) ("a.com".toList) 14 (by decide)

/-! Lemmas about the assembled output, toward C2. -/

/-- The separator line never carries the blacklist comment marker. -/
theorem sep_ne_black (x : Str) : SEPARATOR_COMMENT ≠ BLACKLIST_COMMENT ++ x := by
  intro h
  have h3 : List.take 3 SEPARATOR_COMMENT = List.take 3 (BLACKLIST_COMMENT ++ x) := by
    rw [← h]
  rw [List.take_append_of_le_length (by decide)] at h3
  exact absurd h3 (by decide)

/-- The separator line is not a dotted entry. -/
theorem sep_ne_dot (t : Str) : SEPARATOR_COMMENT ≠ '.' :: t := by
  intro h
  have h1 : SEPARATOR_COMMENT.head? = some '.' := by rw [h]; rfl
  exact absurd h1 (by decide)

/-- The auto-section filter only ever keeps entries of its input list. -/
theorem filterAuto_subset (seen : List Str) :
    ∀ (ds : List Str) (x : Str), x ∈ filterAuto seen ds → x ∈ ds := by
  intro ds
  induction ds with
  | nil => intro x hx; exact absurd hx (by simp [filterAuto])
  | cons d rest ih =>
    intro x hx
    rw [filterAuto] at hx
    split at hx
    · rcases List.mem_cons.mp hx with rfl | hx2
      · exact List.mem_cons_self x rest
      · exact List.mem_cons_of_mem d (ih x hx2)
    · split at hx
      · exact List.mem_cons_of_mem d (ih x hx)
      · rcases List.mem_cons.mp hx with rfl | hx2
        · exact List.mem_cons_self x rest
        · exact List.mem_cons_of_mem d (ih x hx2)

/-- The separator never occurs in the filtered auto-generated section. -/
theorem sep_not_in_auto (seen bl : List Str) (content : Str) :
    SEPARATOR_COMMENT ∉ filterAuto seen (autoEntries content bl) := by
  intro hmem
  have hin := filterAuto_subset seen (autoEntries content bl) SEPARATOR_COMMENT hmem
  rw [autoEntries] at hin
  obtain ⟨t, _, ht⟩ := List.mem_map.mp hin
  rw [process_domain_fst] at ht
  by_cases hb : (is_blacklisted t bl).isSome = true
  · rw [if_pos hb] at ht
    exact sep_ne_black ('.' :: t) ht.symm
  · rw [if_neg hb] at ht
    exact sep_ne_dot t ht.symm

/-- The `if prewhite_domains:` guard of `save_domains_with_prewhite` is
extensionally the identity: extending by an empty list is a no-op. -/
theorem prewhite_ite (bl ls : List Str) :
    (if prewhiteLines bl ls ≠ [] then prewhiteLines bl ls else []) = prewhiteLines bl ls := by
  split
  · rfl
  · next h =>
    simp only [ne_eq, not_not] at h
    exact h.symm

/-- Structural form of the assembled output: whitelist-derived lines, then
the appended separator, then the filtered auto-generated entries. -/
theorem save_eq (domains : List Str) (w : Option (List Str)) (bf : List Str) :
    save_domains_with_prewhite domains w bf =
      prewhiteLines (load_blacklist bf) (optLines w)
        ++ SEPARATOR_COMMENT ::
            filterAuto (prewhiteSeen (load_blacklist bf) (optLines w)) domains := by
  unfold save_domains_with_prewhite
  rw [prewhite_ite, List.append_assoc]
  rfl

/-- C2 counterexample: a whitelist comment line whose text equals the
separator passes through, so the output contains the separator line twice —
the claimed "exactly once" invariant fails on this input. -/
theorem c2_separator_twice :
    runExtract ("server=/a.com/1.1.1.1".toList) (some [SEPARATOR_COMMENT]) [] =
      some [SEPARATOR_COMMENT, SEPARATOR_COMMENT, ".a.com".toList]
    ∧ List.count SEPARATOR_COMMENT
        [SEPARATOR_COMMENT, SEPARATOR_COMMENT, ".a.com".toList] = 2 := by
  decide

/-- C2 as amended: every successful run's output is the whitelist-derived
lines in original order, then one appended separator, then the filtered
auto-generated entries in source order; and whenever no whitelist-derived
line itself equals the separator text, the separator occurs in the output
exactly once. -/
theorem c2_output_structure (content : Str) (w : Option (List Str)) (bf : List Str)
    (out : List Str) (h : runExtract content w bf = some out) :
    out = prewhiteLines (load_blacklist bf) (optLines w)
        ++ SEPARATOR_COMMENT ::
            filterAuto (prewhiteSeen (load_blacklist bf) (optLines w))
              (autoEntries content (load_blacklist bf))
    ∧ (SEPARATOR_COMMENT ∉ prewhiteLines (load_blacklist bf) (optLines w) →
        List.count SEPARATOR_COMMENT out = 1) := by
  have hout : out = save_domains_with_prewhite (autoEntries content (load_blacklist bf)) w bf := by
    unfold runExtract at h
    split at h
    · exact absurd h (by simp)
    · exact (Option.some.injEq _ _ ▸ h).symm
  have hstruct := hout.trans (save_eq (autoEntries content (load_blacklist bf)) w bf)
  refine ⟨hstruct, ?_⟩
  intro hsep
  rw [hstruct, List.count_append, List.count_cons_self]
  rw [List.count_eq_zero.mpr hsep]
  rw [List.count_eq_zero.mpr
    (sep_not_in_auto (prewhiteSeen (load_blacklist bf) (optLines w)) (load_blacklist bf) content)]

/-- Witness for C2: the amended invariant at a concrete run with no
whitelist file. -/
theorem c2_output_structure_witness :
    List.count SEPARATOR_COMMENT [SEPARATOR_COMMENT, ".a.com".toList] = 1 :=
  (c2_output_structure ("server=/a.com/1".toList) none [] [SEPARATOR_COMMENT, ".a.com".toList]
    (by decide)).2 (by decide)

/-! Lemmas about the whitelist region of the output, toward C4 and C6. -/

/-- An index with a value is in range. -/
theorem lt_of_getElem_some {α : Type} {l : List α} {i : Nat} {a : α}
    (h : l[i]? = some a) : i < l.length := by
  by_contra hlt
  rw [List.getElem?_eq_none (Nat.le_of_not_lt hlt)] at h
  exact Option.noConfusion h

/-- In the assembled output the line at a whitelist index is the processed
form of the corresponding whitelist line. -/
theorem save_whitelist_get (domains bf lines : List Str) (i : Nat) (line : Str)
    (hline : lines[i]? = some line) :
    (save_domains_with_prewhite domains (some lines) bf)[i]? =
      some (outLine (load_blacklist bf) line) := by
  have h : i < lines.length := lt_of_getElem_some hline
  rw [save_eq]
  rw [List.getElem?_append]
  rw [if_pos (by simpa [prewhiteLines] using h)]
  show (prewhiteLines (load_blacklist bf) lines)[i]? = _
  rw [prewhiteLines, List.getElem?_map, hline]
  rfl

/-- Everything in the "seen" set is a text the blacklist does not match. -/
theorem prewhiteSeen_black_none (bl : List Str) :
    ∀ (ls : List Str) (x : Str), x ∈ prewhiteSeen bl ls → is_blacklisted x bl = none := by
  intro ls
  induction ls with
  | nil => intro x hx; exact absurd hx (by simp [prewhiteSeen])
  | cons line rest ih =>
    intro x hx
    rw [prewhiteSeen] at hx
    split at hx
    · exact ih x hx
    · split at hx
      · exact ih x hx
      · next hng =>
        split at hx
        · rcases List.mem_cons.mp hx with heq | hx2
          · rw [heq]
            cases hbl : bl with
            | nil => exact black_nil _
            | cons b l =>
              rw [hbl] at hng
              cases ho : is_blacklisted (pyStrip line) (b :: l) with
              | none => rfl
              | some y =>
                exact absurd ⟨by simp, by rw [ho]; rfl⟩ hng
          · exact ih x hx2
        · exact ih x hx

/-- A whitelist domain entry the blacklist does not match puts its stripped
text into the "seen" set. -/
theorem prewhiteSeen_mem_of (bl : List Str) (lines : List Str) (line : Str)
    (hmem : line ∈ lines)
    (h1 : pyStrip line ≠ []) (h2 : pyStartswith (pyStrip line) hashStr = false)
    (h3 : is_blacklisted (pyStrip line) bl = none) :
    pyStrip line ∈ prewhiteSeen bl lines := by
  induction lines with
  | nil => exact absurd hmem (by simp)
  | cons a rest ih =>
    rw [prewhiteSeen]
    rcases List.mem_cons.mp hmem with rfl | hm
    · rw [if_neg (by simp [h1, h2]), if_neg (by rw [h3]; simp), if_pos ⟨h1, h2⟩]
      exact List.mem_cons_self _ _
    · have hin := ih hm
      split
      · exact hin
      · split
        · exact hin
        · split
          · exact List.mem_cons_of_mem _ hin
          · exact hin

/-- C4: a whitelist domain-entry line that matches a blacklist pattern shows
up in the output, at its original whitelist position, as the fixed blacklist
comment marker followed by the entry text, and that text is not recorded in
the deduplication "seen" set; a non-matching domain entry is kept at its
position and its exact text is recorded in the "seen" set. -/
theorem c4_blacklist_overrides_whitelist (domains bf lines : List Str) (i : Nat)
    (line : Str) (hline : lines[i]? = some line)
    (h1 : pyStrip line ≠ [])
    (h2 : pyStartswith (pyStrip line) hashStr = false) :
    ((is_blacklisted (pyStrip line) (load_blacklist bf)).isSome = true →
      (save_domains_with_prewhite domains (some lines) bf)[i]? =
        some (BLACKLIST_COMMENT ++ pyStrip line)
      ∧ pyStrip line ∉ prewhiteSeen (load_blacklist bf) lines)
    ∧ (is_blacklisted (pyStrip line) (load_blacklist bf) = none →
      (save_domains_with_prewhite domains (some lines) bf)[i]? = some (pyStrip line)
      ∧ pyStrip line ∈ prewhiteSeen (load_blacklist bf) lines) := by
  constructor
  · intro hb
    have hbl : load_blacklist bf ≠ [] := by
      intro he
      rw [he, black_nil] at hb
      exact Bool.noConfusion hb
    constructor
    · rw [save_whitelist_get domains bf lines i line hline]
      rw [outLine, if_neg (by simp [h1, h2]), if_pos ⟨hbl, hb⟩]
    · intro hmem
      rw [prewhiteSeen_black_none (load_blacklist bf) lines (pyStrip line) hmem] at hb
      exact Bool.noConfusion hb
  · intro hb
    constructor
    · rw [save_whitelist_get domains bf lines i line hline]
      rw [outLine, if_neg (by simp [h1, h2]), if_neg (by rw [hb]; simp)]
    · exact prewhiteSeen_mem_of (load_blacklist bf) lines line (List.getElem?_mem hline) h1 h2 hb

/-- Witness for C4: a blacklisted whitelist entry is demoted to a comment at
its position and kept out of the seen set; a clean entry is kept and seen. -/
theorem c4_blacklist_overrides_whitelist_witness :
    ((save_domains_with_prewhite [] (some ["a.b.com".toList, "ok.com".toList])
        ["b.com".toList])[0]? = some (BLACKLIST_COMMENT ++ pyStrip ("a.b.com".toList))
      ∧ pyStrip ("a.b.com".toList) ∉
          prewhiteSeen (load_blacklist ["b.com".toList]) ["a.b.com".toList, "ok.com".toList])
    ∧ ((save_domains_with_prewhite [] (some ["a.b.com".toList, "ok.com".toList])
        ["b.com".toList])[1]? = some (pyStrip ("ok.com".toList))
      ∧ pyStrip ("ok.com".toList) ∈
          prewhiteSeen (load_blacklist ["b.com".toList]) ["a.b.com".toList, "ok.com".toList]) :=
  ⟨(c4_blacklist_overrides_whitelist [] ["b.com".toList]
      ["a.b.com".toList, "ok.com".toList] 0 ("a.b.com".toList)
      (by decide) (by decide) (by decide)).1 (by decide),
   (c4_blacklist_overrides_whitelist [] ["b.com".toList]
      ["a.b.com".toList, "ok.com".toList] 1 ("ok.com".toList)
      (by decide) (by decide) (by decide)).2 (by decide)⟩

/-- C6 counterexample: a `#`-prefixed whitelist line carrying trailing
whitespace is emitted stripped, not byte-identical to the line as read. -/
theorem c6_not_verbatim :
    (save_domains_with_prewhite [".a.com".toList] (some ["# note ".toList]) [])[0]? =
      some ("# note".toList)
    ∧ "# note".toList ≠ "# note ".toList := by
  decide

/-- C6 as amended: a whitelist line that strips to the empty string, or
whose stripped form begins with `#`, passes through at its original position
as its stripped text (hence byte-identical exactly when the line carries no
surrounding whitespace). -/
theorem c6_passthrough (domains bf lines : List Str) (i : Nat) (line : Str)
    (hline : lines[i]? = some line)
    (hk : pyStrip line = [] ∨ pyStartswith (pyStrip line) hashStr = true) :
    (save_domains_with_prewhite domains (some lines) bf)[i]? = some (pyStrip line) := by
  rw [save_whitelist_get domains bf lines i line hline]
  rw [outLine, if_pos hk]

/-- Witness for C6 at a comment line without surrounding whitespace. -/
theorem c6_passthrough_witness :
    (save_domains_with_prewhite [] (some ["# keep".toList]) [])[0]? =
      some (pyStrip ("# keep".toList)) :=
  c6_passthrough [] [] ["# keep".toList] 0 ("# keep".toList) (by decide) (by decide)
